import Mathlib

/-!
Verification of the perlur bead-pattern pipeline (src/main.rs, src/process.rs).

Shallow embedding conventions:
* `u8` channel values are `Nat`; where the Rust code casts (`as u16`, `as u8`)
  the embedding applies the corresponding `% 2^16` / `% 2^8` reductions.
* `f32` distances are modelled as `ℚ`.  For the RGB metric every intermediate
  value (per-channel difference, its square, and the sum of three squares,
  bounded by 3·255² < 2²⁴) is exactly representable in `f32`, so the rational
  model is exact.  `f32::INFINITY` is modelled as `Option.none` in the best-so-far
  slot of the scan state (every finite distance compares strictly below it).
* The sRGB → CIE Lab conversion lives in the external `lab` crate and is
  floating-point; it is abstracted as a parameter `f : Rgb → Lab`, while the
  `squared_distance` combination on Lab triples is embedded structurally.
* `BTreeMap<&str, u32>` frequency accumulation (`entry(..).or_insert(0) += 1`)
  is modelled as the multiset of the names tallied; the u32 counter the map
  actually stores for a name is that name's tally reduced modulo 2^32
  (`freqCount32`) — release builds wrap there, debug builds panic.
* Rust panics (out-of-bounds `get_pixel`) are modelled as `Option.none`.
-/

/-- An RGB colour: three 8-bit channels, modelled as `Nat` (values < 256). -/
structure Rgb where
  r : Nat
  g : Nat
  b : Nat
deriving DecidableEq, Repr

/-- An RGBA pixel: colour plus 8-bit alpha. -/
structure Rgba where
  r : Nat
  g : Nat
  b : Nat
  a : Nat
deriving DecidableEq, Repr

/-- The channels of a u8-valued pixel are at most 255. -/
def Rgba.Valid (p : Rgba) : Prop :=
  p.r ≤ 255 ∧ p.g ≤ 255 ∧ p.b ≤ 255 ∧ p.a ≤ 255

/-- Embedding of `Rgb::to_rgba` from the image crate: alpha channel filled
with the maximum value 255 (used at `*p = colour.to_rgba()` in process.rs). -/
def Rgb.toRgba (c : Rgb) : Rgba :=
  ⟨c.r, c.g, c.b, 255⟩

/-- Embedding of `distance_rgb` (process.rs lines 82-90): sum of squared
per-channel differences.  Channel values and all intermediates are exact in
`f32`, so the `ℚ`-valued model coincides with the Rust function. -/
def distance_rgb (x y : Rgb) : ℚ :=
  ((x.r : ℚ) - y.r) ^ 2 + ((x.g : ℚ) - y.g) ^ 2 + ((x.b : ℚ) - y.b) ^ 2

/-- A CIE Lab colour as produced by `Lab::from_rgb` in the external lab crate. -/
structure Lab where
  l : ℚ
  a : ℚ
  b : ℚ

/-- Embedding of `Lab::squared_distance`: squared Euclidean distance of the
three Lab components. -/
def Lab.squaredDistance (x y : Lab) : ℚ :=
  (x.l - y.l) ^ 2 + (x.a - y.a) ^ 2 + (x.b - y.b) ^ 2

/-- Embedding of `distance_lab` (process.rs lines 91-96): convert both colours
to Lab, then take the squared Lab distance.  The conversion itself is external
floating-point code, abstracted here as the parameter `f`. -/
def distance_lab (f : Rgb → Lab) (x y : Rgb) : ℚ :=
  Lab.squaredDistance (f x) (f y)

/-- Embedding of one channel of `mul_rgba` (process.rs lines 129-133):
`((a as u16 * b as u16) / 255) as u8`, with the `u16` and `u8` casts made
explicit as `% 2^16` and `% 2^8`. -/
def mulChannel (x y : Nat) : Nat :=
  (x * y % 65536 / 255) % 256

/-- Embedding of `mul_rgba` (process.rs lines 129-133): per-channel multiply
blend of two RGBA pixels, applied to all four channels including alpha. -/
def mul_rgba (x y : Rgba) : Rgba :=
  ⟨mulChannel x.r y.r, mulChannel x.g y.g, mulChannel x.b y.b, mulChannel x.a y.a⟩

lemma mulChannel_eq_div (x y : Nat) (hx : x ≤ 255) (hy : y ≤ 255) :
    mulChannel x y = x * y / 255 := by
  have hxy : x * y ≤ 65025 := by
    calc x * y ≤ 255 * 255 := Nat.mul_le_mul hx hy
    _ = 65025 := by norm_num
  have h16 : x * y % 65536 = x * y := Nat.mod_eq_of_lt (by omega)
  have hq : x * y / 255 ≤ 65025 / 255 := Nat.div_le_div_right hxy
  unfold mulChannel
  rw [h16]
  omega

lemma mulChannel_le_left (x y : Nat) (hx : x ≤ 255) (hy : y ≤ 255) :
    mulChannel x y ≤ x := by
  rw [mulChannel_eq_div x y hx hy]
  have h1 : x * y / 255 ≤ x * 255 / 255 := Nat.div_le_div_right (Nat.mul_le_mul_left x hy)
  have h2 : x * 255 / 255 = x := by omega
  omega

lemma mulChannel_le_right (x y : Nat) (hx : x ≤ 255) (hy : y ≤ 255) :
    mulChannel x y ≤ y := by
  rw [mulChannel_eq_div x y hx hy, Nat.mul_comm]
  have h1 : y * x / 255 ≤ y * 255 / 255 := Nat.div_le_div_right (Nat.mul_le_mul_left y hx)
  have h2 : y * 255 / 255 = y := by omega
  omega

/-- Claim C8: both distance metrics vanish on equal arguments, are symmetric,
and return a non-negative dissimilarity.  For the Lab metric this holds for
every conversion function `f`, hence in particular for the one the lab crate
implements. -/
theorem distance_metrics_zero_symm_nonneg (x y : Rgb) (f : Rgb → Lab) :
    distance_rgb x x = 0 ∧ distance_rgb x y = distance_rgb y x ∧
      0 ≤ distance_rgb x y ∧
      distance_lab f x x = 0 ∧ distance_lab f x y = distance_lab f y x ∧
      0 ≤ distance_lab f x y := by
  refine ⟨?_, ?_, ?_, ?_, ?_, ?_⟩
  · simp [distance_rgb]
  · unfold distance_rgb; ring
  · unfold distance_rgb; positivity
  · simp [distance_lab, Lab.squaredDistance]
  · unfold distance_lab Lab.squaredDistance; ring
  · unfold distance_lab Lab.squaredDistance; positivity

/-- Claim C5: each channel of the multiply blend equals `floor(c·t/255)`;
a texture channel of 255 leaves the cell channel unchanged, and a texture
channel of 0 forces the output channel to 0.  Stated for the red channel and
all four channels jointly via `mul_rgba`. -/
theorem mul_rgba_channel_law (c t : Rgba) (hc : c.Valid) (ht : t.Valid) :
    (mul_rgba c t).r = c.r * t.r / 255 ∧ (mul_rgba c t).g = c.g * t.g / 255 ∧
      (mul_rgba c t).b = c.b * t.b / 255 ∧ (mul_rgba c t).a = c.a * t.a / 255 ∧
      (t.r = 255 → (mul_rgba c t).r = c.r) ∧ (t.r = 0 → (mul_rgba c t).r = 0) := by
  obtain ⟨hcr, hcg, hcb, hca⟩ := hc
  obtain ⟨htr, htg, htb, hta⟩ := ht
  refine ⟨mulChannel_eq_div _ _ hcr htr, mulChannel_eq_div _ _ hcg htg,
    mulChannel_eq_div _ _ hcb htb, mulChannel_eq_div _ _ hca hta, ?_, ?_⟩
  · intro h
    simp only [mul_rgba]
    rw [mulChannel_eq_div _ _ hcr htr, h]
    omega
  · intro h
    simp only [mul_rgba]
    rw [mulChannel_eq_div _ _ hcr htr, h]
    simp

/-- Witness for C5 at c = (10,20,30,255), t = (100,255,0,128). -/
theorem mul_rgba_channel_law_witness :
    (Rgba.mk 10 20 30 255).Valid ∧ (Rgba.mk 100 255 0 128).Valid ∧
      ((mul_rgba ⟨10, 20, 30, 255⟩ ⟨100, 255, 0, 128⟩).r = 10 * 100 / 255 ∧
        (mul_rgba ⟨10, 20, 30, 255⟩ ⟨100, 255, 0, 128⟩).g = 20 * 255 / 255 ∧
        (mul_rgba ⟨10, 20, 30, 255⟩ ⟨100, 255, 0, 128⟩).b = 30 * 0 / 255 ∧
        (mul_rgba ⟨10, 20, 30, 255⟩ ⟨100, 255, 0, 128⟩).a = 255 * 128 / 255 ∧
        ((100 : Nat) = 255 → (mul_rgba ⟨10, 20, 30, 255⟩ ⟨100, 255, 0, 128⟩).r = 10) ∧
        ((100 : Nat) = 0 → (mul_rgba ⟨10, 20, 30, 255⟩ ⟨100, 255, 0, 128⟩).r = 0)) :=
  ⟨by constructor <;> simp, by constructor <;> simp,
    mul_rgba_channel_law ⟨10, 20, 30, 255⟩ ⟨100, 255, 0, 128⟩
      (by constructor <;> simp) (by constructor <;> simp)⟩

/-- Claim C10: for u8 channels the widened product fits in 16 bits, the
quotient by 255 fits back in 8 bits (the casts lose nothing), and the blend
never exceeds either operand on any channel, alpha included. -/
theorem mul_rgba_safety (c t : Rgba) (hc : c.Valid) (ht : t.Valid) :
    c.r * t.r < 65536 ∧ c.g * t.g < 65536 ∧ c.b * t.b < 65536 ∧ c.a * t.a < 65536 ∧
      c.r * t.r / 255 ≤ 255 ∧
      (mul_rgba c t).r ≤ c.r ∧ (mul_rgba c t).r ≤ t.r ∧
      (mul_rgba c t).g ≤ c.g ∧ (mul_rgba c t).g ≤ t.g ∧
      (mul_rgba c t).b ≤ c.b ∧ (mul_rgba c t).b ≤ t.b ∧
      (mul_rgba c t).a ≤ c.a ∧ (mul_rgba c t).a ≤ t.a := by
  obtain ⟨hcr, hcg, hcb, hca⟩ := hc
  obtain ⟨htr, htg, htb, hta⟩ := ht
  have hb : ∀ u v : Nat, u ≤ 255 → v ≤ 255 → u * v < 65536 := by
    intro u v hu hv
    have : u * v ≤ 255 * 255 := Nat.mul_le_mul hu hv
    omega
  have hq : c.r * t.r / 255 ≤ 255 := by
    have h1 : c.r * t.r ≤ 65025 := by
      have := Nat.mul_le_mul hcr htr; omega
    have h2 : c.r * t.r / 255 ≤ 65025 / 255 := Nat.div_le_div_right h1
    omega
  exact ⟨hb _ _ hcr htr, hb _ _ hcg htg, hb _ _ hcb htb, hb _ _ hca hta, hq,
    mulChannel_le_left _ _ hcr htr, mulChannel_le_right _ _ hcr htr,
    mulChannel_le_left _ _ hcg htg, mulChannel_le_right _ _ hcg htg,
    mulChannel_le_left _ _ hcb htb, mulChannel_le_right _ _ hcb htb,
    mulChannel_le_left _ _ hca hta, mulChannel_le_right _ _ hca hta⟩

/-- Witness for C10 at c = (200,1,255,77), t = (200,255,254,0). -/
theorem mul_rgba_safety_witness :
    (Rgba.mk 200 1 255 77).Valid ∧ (Rgba.mk 200 255 254 0).Valid ∧
      (200 * 200 < 65536 ∧ 1 * 255 < 65536 ∧ 255 * 254 < 65536 ∧ 77 * 0 < 65536 ∧
        200 * 200 / 255 ≤ 255 ∧
        (mul_rgba ⟨200, 1, 255, 77⟩ ⟨200, 255, 254, 0⟩).r ≤ 200 ∧
        (mul_rgba ⟨200, 1, 255, 77⟩ ⟨200, 255, 254, 0⟩).r ≤ 200 ∧
        (mul_rgba ⟨200, 1, 255, 77⟩ ⟨200, 255, 254, 0⟩).g ≤ 1 ∧
        (mul_rgba ⟨200, 1, 255, 77⟩ ⟨200, 255, 254, 0⟩).g ≤ 255 ∧
        (mul_rgba ⟨200, 1, 255, 77⟩ ⟨200, 255, 254, 0⟩).b ≤ 255 ∧
        (mul_rgba ⟨200, 1, 255, 77⟩ ⟨200, 255, 254, 0⟩).b ≤ 254 ∧
        (mul_rgba ⟨200, 1, 255, 77⟩ ⟨200, 255, 254, 0⟩).a ≤ 77 ∧
        (mul_rgba ⟨200, 1, 255, 77⟩ ⟨200, 255, 254, 0⟩).a ≤ 0) :=
  ⟨by constructor <;> simp, by constructor <;> simp,
    mul_rgba_safety ⟨200, 1, 255, 77⟩ ⟨200, 255, 254, 0⟩
      (by constructor <;> simp) (by constructor <;> simp)⟩

/-- State of the linear palette scan in `create_beads` (process.rs lines
62-72): current best colour, best distance so far (`none` models the
`f32::INFINITY` initial value), and the name chosen so far. -/
structure ScanState where
  colour : Rgb
  best : Option ℚ
  chosenName : String
deriving DecidableEq, Repr

/-- Comparison `dist < best_dist` of the scan: every finite distance is below
the initial `f32::INFINITY` (modelled as `none`). -/
def ltBest (d : ℚ) : Option ℚ → Bool
  | none => true
  | some bd => decide (d < bd)

/-- One iteration of the palette loop in `create_beads` (process.rs lines
65-72): keep the entry only when its distance is strictly smaller than the
best so far. -/
def scanStep (dist : Rgb → Rgb → ℚ) (target : Rgb) (s : ScanState)
    (e : String × Rgb) : ScanState :=
  if ltBest (dist e.2 target) s.best then ⟨e.2, some (dist e.2 target), e.1⟩ else s

/-- The whole palette loop of `create_beads`, starting from the initial state
`colour = target`, `best_dist = INFINITY`, `chosen_name = ""`. -/
def scanPalette (dist : Rgb → Rgb → ℚ) (target : Rgb)
    (palette : List (String × Rgb)) : ScanState :=
  palette.foldl (scanStep dist target) ⟨target, none, ""⟩

/-- The per-pixel body of `create_beads` (process.rs lines 55-76): pixels with
alpha < 128 become the transparent-white sentinel and contribute no name;
all other pixels are scanned against the palette, repainted fully opaque with
the scan's colour, and contribute the scan's chosen name to the frequency
table (with an empty palette the scan state is untouched, so the RGB is kept,
alpha becomes 255 and the empty name is tallied). -/
def quantizePixel (dist : Rgb → Rgb → ℚ) (palette : List (String × Rgb))
    (p : Rgba) : Rgba × Option String :=
  if p.a < 128 then (⟨255, 255, 255, 0⟩, none)
  else
    let s := scanPalette dist ⟨p.r, p.g, p.b⟩ palette
    (s.colour.toRgba, some s.chosenName)

/-- Embedding of the quantization pass of `create_beads` (process.rs lines
55-79) over the flat pixel list of the downscaled grid: the frequency table
(as the multiset of tallied names) and the quantized pixels. -/
def createBeads (dist : Rgb → Rgb → ℚ) (palette : List (String × Rgb))
    (pixels : List Rgba) : Multiset String × List Rgba :=
  (↑(pixels.filterMap fun p => (quantizePixel dist palette p).2),
    pixels.map fun p => (quantizePixel dist palette p).1)

/-- Reference first-argmin over the palette: the entry kept by a right fold
that prefers the earlier entry on ties, with its distance. -/
def firstMin (dist : Rgb → Rgb → ℚ) (target : Rgb) :
    List (String × Rgb) → Option ((String × Rgb) × ℚ)
  | [] => none
  | e :: rest =>
    match firstMin dist target rest with
    | none => some (e, dist e.2 target)
    | some (e2, d2) =>
      if d2 < dist e.2 target then some (e2, d2) else some (e, dist e.2 target)

lemma firstMin_eq_none_iff (dist : Rgb → Rgb → ℚ) (target : Rgb)
    (l : List (String × Rgb)) : firstMin dist target l = none ↔ l = [] := by
  cases l with
  | nil => simp [firstMin]
  | cons e rest =>
    simp only [firstMin, List.cons_ne_nil, iff_false]
    cases firstMin dist target rest with
    | none => simp
    | some p =>
      obtain ⟨e2, d2⟩ := p
      by_cases h : d2 < dist e.2 target <;> simp [h]

lemma scanPalette_foldl_some (dist : Rgb → Rgb → ℚ) (target : Rgb)
    (l : List (String × Rgb)) :
    ∀ (c : Rgb) (bd : ℚ) (n : String),
      l.foldl (scanStep dist target) ⟨c, some bd, n⟩ =
        match firstMin dist target l with
        | none => ⟨c, some bd, n⟩
        | some (e, d) => if d < bd then ⟨e.2, some d, e.1⟩ else ⟨c, some bd, n⟩ := by
  induction l with
  | nil => intro c bd n; rfl
  | cons e rest ih =>
    intro c bd n
    rw [List.foldl_cons]
    by_cases h : dist e.2 target < bd
    · rw [show scanStep dist target ⟨c, some bd, n⟩ e = ⟨e.2, some (dist e.2 target), e.1⟩ by
        simp [scanStep, ltBest, h]]
      rw [ih]
      cases hfm : firstMin dist target rest with
      | none =>
        simp only [firstMin, hfm]
        simp [h]
      | some p =>
        obtain ⟨e2, d2⟩ := p
        simp only [firstMin, hfm]
        by_cases h2 : d2 < dist e.2 target
        · have h3 : d2 < bd := h2.trans h
          simp [h2, h3, h]
        · simp [h2, h]
    · rw [show scanStep dist target ⟨c, some bd, n⟩ e = ⟨c, some bd, n⟩ by
        simp [scanStep, ltBest, h]]
      rw [ih]
      cases hfm : firstMin dist target rest with
      | none =>
        simp only [firstMin, hfm]
        simp [h]
      | some p =>
        obtain ⟨e2, d2⟩ := p
        simp only [firstMin, hfm]
        by_cases h2 : d2 < dist e.2 target
        · simp [h2]
        · have h3 : ¬ d2 < bd := by
            push_neg at h h2 ⊢
            exact h.trans h2
          simp [h2, h3, h]

lemma scanPalette_eq_firstMin (dist : Rgb → Rgb → ℚ) (target : Rgb)
    (l : List (String × Rgb)) (hl : l ≠ []) :
    scanPalette dist target l =
      match firstMin dist target l with
      | none => ⟨target, none, ""⟩
      | some (e, d) => ⟨e.2, some d, e.1⟩ := by
  cases l with
  | nil => exact absurd rfl hl
  | cons e rest =>
    unfold scanPalette
    rw [List.foldl_cons]
    rw [show scanStep dist target ⟨target, none, ""⟩ e
        = ⟨e.2, some (dist e.2 target), e.1⟩ by simp [scanStep, ltBest]]
    rw [scanPalette_foldl_some]
    cases hfm : firstMin dist target rest with
    | none => simp only [firstMin, hfm]
    | some p =>
      obtain ⟨e2, d2⟩ := p
      simp only [firstMin, hfm]
      by_cases h2 : d2 < dist e.2 target <;> simp [h2]

lemma firstMin_spec (dist : Rgb → Rgb → ℚ) (target : Rgb) :
    ∀ (l : List (String × Rgb)) (e : String × Rgb) (d : ℚ),
      firstMin dist target l = some (e, d) →
      d = dist e.2 target ∧
        ∃ pre suf, l = pre ++ e :: suf ∧
          (∀ e2 ∈ l, d ≤ dist e2.2 target) ∧
          (∀ e2 ∈ pre, d < dist e2.2 target) := by
  intro l
  induction l with
  | nil => intro e d h; exact absurd h (by simp [firstMin])
  | cons a rest ih =>
    intro e d h
    cases hfm : firstMin dist target rest with
    | none =>
      have hrest : rest = [] := (firstMin_eq_none_iff dist target rest).mp hfm
      subst hrest
      simp only [firstMin] at h
      obtain ⟨he, hd⟩ : a = e ∧ dist a.2 target = d := by
        constructor <;> [exact congrArg Prod.fst (Option.some.inj h);
          exact congrArg Prod.snd (Option.some.inj h)]
      subst he
      refine ⟨hd.symm, [], [], rfl, ?_, by simp⟩
      intro e2 he2
      rw [List.mem_singleton] at he2
      subst he2
      exact le_of_eq hd.symm
    | some p =>
      obtain ⟨e2, d2⟩ := p
      obtain ⟨hd2, pre, suf, hsplit, hmin, hstrict⟩ := ih e2 d2 hfm
      simp only [firstMin, hfm] at h
      by_cases hlt : d2 < dist a.2 target
      · rw [if_pos hlt] at h
        obtain ⟨he, hd⟩ : e2 = e ∧ d2 = d := by
          constructor <;> [exact congrArg Prod.fst (Option.some.inj h);
            exact congrArg Prod.snd (Option.some.inj h)]
        subst he; subst hd
        refine ⟨hd2, a :: pre, suf, by rw [hsplit]; rfl, ?_, ?_⟩
        · intro e3 he3
          rcases List.mem_cons.mp he3 with h3 | h3
          · subst h3; exact le_of_lt hlt
          · exact hmin e3 h3
        · intro e3 he3
          rcases List.mem_cons.mp he3 with h3 | h3
          · subst h3; exact hlt
          · exact hstrict e3 h3
      · rw [if_neg hlt] at h
        obtain ⟨he, hd⟩ : a = e ∧ dist a.2 target = d := by
          constructor <;> [exact congrArg Prod.fst (Option.some.inj h);
            exact congrArg Prod.snd (Option.some.inj h)]
        subst he
        refine ⟨hd.symm, [], rest, rfl, ?_, by simp⟩
        intro e3 he3
        rcases List.mem_cons.mp he3 with h3 | h3
        · subst h3; exact le_of_eq hd.symm
        · calc d = dist a.2 target := hd.symm
          _ ≤ d2 := le_of_not_lt hlt
          _ ≤ dist e3.2 target := hmin e3 h3

/-- Claim C1: for any pixel with alpha ≥ 128 and any non-empty palette, the
quantizer outputs a fully opaque pixel carrying the colour and name of the
first palette entry (in palette order) achieving minimal distance — ties are
not taken because the scan keeps an entry only on strictly smaller distance.
Stated for an arbitrary metric, hence for both `distance_rgb` and
`distance_lab`. -/
theorem quantize_picks_first_minimal_entry (dist : Rgb → Rgb → ℚ)
    (palette : List (String × Rgb)) (p : Rgba)
    (hpal : palette ≠ []) (ha : 128 ≤ p.a) :
    ∃ pre e suf, palette = pre ++ e :: suf ∧
      quantizePixel dist palette p = (⟨e.2.r, e.2.g, e.2.b, 255⟩, some e.1) ∧
      (∀ e2 ∈ palette, dist e.2 ⟨p.r, p.g, p.b⟩ ≤ dist e2.2 ⟨p.r, p.g, p.b⟩) ∧
      (∀ e2 ∈ pre, dist e.2 ⟨p.r, p.g, p.b⟩ < dist e2.2 ⟨p.r, p.g, p.b⟩) := by
  have hna : ¬ p.a < 128 := by omega
  obtain ⟨q, hq⟩ : ∃ q, firstMin dist ⟨p.r, p.g, p.b⟩ palette = some q := by
    cases hfm : firstMin dist ⟨p.r, p.g, p.b⟩ palette with
    | none => exact absurd ((firstMin_eq_none_iff _ _ _).mp hfm) hpal
    | some q => exact ⟨q, rfl⟩
  obtain ⟨e, d⟩ := q
  obtain ⟨hd, pre, suf, hsplit, hmin, hstrict⟩ :=
    firstMin_spec dist ⟨p.r, p.g, p.b⟩ palette e d hq
  refine ⟨pre, e, suf, hsplit, ?_, ?_, ?_⟩
  · simp only [quantizePixel, if_neg hna]
    rw [scanPalette_eq_firstMin dist ⟨p.r, p.g, p.b⟩ palette hpal, hq]
    rfl
  · intro e2 h2
    exact hd ▸ hmin e2 h2
  · intro e2 h2
    exact hd ▸ hstrict e2 h2

/-- Witness for C1: a palette whose two entries are equidistant from the
target; the first one is chosen. -/
theorem quantize_picks_first_minimal_entry_witness :
    ([("A", Rgb.mk 1 2 3), ("B", Rgb.mk 1 2 3)] : List (String × Rgb)) ≠ [] ∧
      128 ≤ (Rgba.mk 9 9 9 200).a ∧
      (∃ pre e suf,
        ([("A", Rgb.mk 1 2 3), ("B", Rgb.mk 1 2 3)] : List (String × Rgb))
          = pre ++ e :: suf ∧
        quantizePixel distance_rgb [("A", Rgb.mk 1 2 3), ("B", Rgb.mk 1 2 3)]
            ⟨9, 9, 9, 200⟩ = (⟨e.2.r, e.2.g, e.2.b, 255⟩, some e.1) ∧
        (∀ e2 ∈ ([("A", Rgb.mk 1 2 3), ("B", Rgb.mk 1 2 3)] : List (String × Rgb)),
          distance_rgb e.2 ⟨9, 9, 9⟩ ≤ distance_rgb e2.2 ⟨9, 9, 9⟩) ∧
        (∀ e2 ∈ pre, distance_rgb e.2 ⟨9, 9, 9⟩ < distance_rgb e2.2 ⟨9, 9, 9⟩)) :=
  ⟨by simp, by norm_num,
    quantize_picks_first_minimal_entry distance_rgb
      [("A", Rgb.mk 1 2 3), ("B", Rgb.mk 1 2 3)] ⟨9, 9, 9, 200⟩
      (by simp) (by norm_num)⟩

/-- Claim C2: a pixel with alpha < 128 is replaced by the transparent-white
sentinel (255,255,255,0) and contributes nothing to the frequency table,
wherever it sits in the grid. -/
theorem transparent_pixel_sentinel_uncounted (dist : Rgb → Rgb → ℚ)
    (palette : List (String × Rgb)) (p : Rgba) (pre post : List Rgba)
    (h : p.a < 128) :
    quantizePixel dist palette p = (⟨255, 255, 255, 0⟩, none) ∧
      (createBeads dist palette (pre ++ p :: post)).1
        = (createBeads dist palette (pre ++ post)).1 := by
  have h1 : quantizePixel dist palette p = (⟨255, 255, 255, 0⟩, none) := by
    simp [quantizePixel, h]
  have h2 : (quantizePixel dist palette p).2 = none := by rw [h1]
  refine ⟨h1, ?_⟩
  simp [createBeads, List.filterMap_append, List.filterMap_cons, h2]

/-- Witness for C2 at the pixel (1,2,3,50) between two opaque pixels. -/
theorem transparent_pixel_sentinel_uncounted_witness :
    (Rgba.mk 1 2 3 50).a < 128 ∧
      (quantizePixel distance_rgb [("A", Rgb.mk 0 0 0)] ⟨1, 2, 3, 50⟩
          = (⟨255, 255, 255, 0⟩, none) ∧
        (createBeads distance_rgb [("A", Rgb.mk 0 0 0)]
            ([⟨5, 5, 5, 255⟩] ++ Rgba.mk 1 2 3 50 :: [⟨6, 6, 6, 255⟩])).1
          = (createBeads distance_rgb [("A", Rgb.mk 0 0 0)]
              ([⟨5, 5, 5, 255⟩] ++ [⟨6, 6, 6, 255⟩])).1) :=
  ⟨by norm_num,
    transparent_pixel_sentinel_uncounted distance_rgb [("A", Rgb.mk 0 0 0)]
      ⟨1, 2, 3, 50⟩ [⟨5, 5, 5, 255⟩] [⟨6, 6, 6, 255⟩] (by norm_num)⟩

/-- Decision `128 ≤ alpha` that selects the counted branch of the quantizer. -/
def isOpaque (p : Rgba) : Bool := 128 ≤ p.a

/-- The u32 counter stored in the BTreeMap for a given name (process.rs line
74, `*frequency.entry(chosen_name).or_insert(0u32) += 1`): the tally of that
name reduced modulo 2^32, which is where release builds wrap (debug builds
panic on the overflowing increment instead). -/
def freqCount32 (freq : Multiset String) (name : String) : Nat :=
  freq.count name % 4294967296

lemma tally_card_eq_opaque_length (dist : Rgb → Rgb → ℚ)
    (palette : List (String × Rgb)) (pixels : List Rgba) :
    Multiset.card (createBeads dist palette pixels).1
      = (pixels.filter isOpaque).length := by
  simp only [createBeads, Multiset.coe_card]
  induction pixels with
  | nil => rfl
  | cons p rest ih =>
    by_cases h : p.a < 128
    · have h2 : (quantizePixel dist palette p).2 = none := by
        simp [quantizePixel, h]
      have h3 : isOpaque p = false := by
        simp only [isOpaque, decide_eq_false_iff_not]
        omega
      simp [List.filterMap_cons, h2, List.filter_cons, h3, ih]
    · have h2 : (quantizePixel dist palette p).2
          = some (scanPalette dist ⟨p.r, p.g, p.b⟩ palette).chosenName := by
        simp [quantizePixel, h]
      have h3 : isOpaque p = true := by
        simp only [isOpaque, decide_eq_true_eq]
        omega
      simp [List.filterMap_cons, h2, List.filter_cons, h3, ih]

lemma createBeads_tally_replicate (dist : Rgb → Rgb → ℚ) (n : Nat) :
    (createBeads dist [("A", Rgb.mk 0 0 0)] (List.replicate n ⟨0, 0, 0, 255⟩)).1
      = Multiset.replicate n "A" := by
  have h255 : ¬ (255 : Nat) < 128 := by norm_num
  have hq : (quantizePixel dist [("A", Rgb.mk 0 0 0)] ⟨0, 0, 0, 255⟩).2
      = some "A" := by
    simp [quantizePixel, h255, scanPalette, scanStep, ltBest]
  rw [← Multiset.coe_replicate]
  simp only [createBeads]
  congr 1
  induction n with
  | zero => rfl
  | succ n ih =>
    simp [List.replicate_succ, List.filterMap_cons, hq, ih]

lemma freq_sum_replicate (dist : Rgb → Rgb → ℚ) (n : Nat) (hn : n ≠ 0) :
    (∑ name in (createBeads dist [("A", Rgb.mk 0 0 0)]
          (List.replicate n ⟨0, 0, 0, 255⟩)).1.toFinset,
        freqCount32 ((createBeads dist [("A", Rgb.mk 0 0 0)]
          (List.replicate n ⟨0, 0, 0, 255⟩)).1) name) = n % 4294967296 := by
  rw [createBeads_tally_replicate dist n, Multiset.toFinset_replicate,
    if_neg hn, Finset.sum_singleton]
  unfold freqCount32
  rw [Multiset.count_replicate_self]

/-- Counterexample to claim C3 at the u32 counter width of the source: a
single-colour opaque grid of 4294967296 pixels (a 65536-by-65536 image at
density 1) with a one-entry palette tallies the name A 2^32 times, so the
stored u32 count wraps to 0 in release builds (debug builds panic on the
overflowing increment); the sum of stored counts is 0, not the number
4294967296 of pixels with alpha at least 128. -/
theorem freq_overflow_wraps :
    (∑ name in (createBeads distance_rgb [("A", Rgb.mk 0 0 0)]
          (List.replicate 4294967296 ⟨0, 0, 0, 255⟩)).1.toFinset,
        freqCount32 ((createBeads distance_rgb [("A", Rgb.mk 0 0 0)]
          (List.replicate 4294967296 ⟨0, 0, 0, 255⟩)).1) name) = 0 ∧
      ((List.replicate 4294967296 (Rgba.mk 0 0 0 255)).filter isOpaque).length
        = 4294967296 ∧
      (0 : Nat) ≠ 4294967296 := by
  refine ⟨?_, ?_, by norm_num⟩
  · rw [freq_sum_replicate distance_rgb 4294967296 (by norm_num)]
  · rw [List.filter_eq_self.mpr, List.length_replicate]
    intro p hp
    rw [List.eq_of_mem_replicate hp]
    rfl

/-- Amended claim C3: whenever the number of opaque pixels is below 2^32 — so
no u32 counter can wrap — the stored counts of the frequency table sum to the
number of grid pixels whose alpha is at least 128 (this also holds for the
empty palette, whose opaque pixels are tallied under the empty name). -/
theorem freq_total_eq_opaque_count_bounded (dist : Rgb → Rgb → ℚ)
    (palette : List (String × Rgb)) (pixels : List Rgba)
    (hsmall : (pixels.filter isOpaque).length < 4294967296) :
    (∑ name in (createBeads dist palette pixels).1.toFinset,
        freqCount32 ((createBeads dist palette pixels).1) name)
      = (pixels.filter isOpaque).length := by
  have hcard := tally_card_eq_opaque_length dist palette pixels
  have hc2 : Multiset.card (createBeads dist palette pixels).1 < 4294967296 := by
    rw [hcard]; exact hsmall
  have hmod : ∀ name ∈ (createBeads dist palette pixels).1.toFinset,
      freqCount32 ((createBeads dist palette pixels).1) name
        = (createBeads dist palette pixels).1.count name := by
    intro name _
    unfold freqCount32
    exact Nat.mod_eq_of_lt (lt_of_le_of_lt (Multiset.count_le_card name _) hc2)
  rw [Finset.sum_congr rfl hmod, Multiset.toFinset_sum_count_eq, hcard]

/-- Witness for the amended C3 on a two-pixel grid with one opaque pixel. -/
theorem freq_total_eq_opaque_count_bounded_witness :
    (([⟨0, 0, 0, 255⟩, ⟨1, 1, 1, 50⟩] : List Rgba).filter isOpaque).length
        < 4294967296 ∧
      (∑ name in (createBeads distance_rgb [("A", Rgb.mk 0 0 0)]
            [⟨0, 0, 0, 255⟩, ⟨1, 1, 1, 50⟩]).1.toFinset,
          freqCount32 ((createBeads distance_rgb [("A", Rgb.mk 0 0 0)]
            [⟨0, 0, 0, 255⟩, ⟨1, 1, 1, 50⟩]).1) name)
        = (([⟨0, 0, 0, 255⟩, ⟨1, 1, 1, 50⟩] : List Rgba).filter isOpaque).length :=
  ⟨by decide,
    freq_total_eq_opaque_count_bounded distance_rgb [("A", Rgb.mk 0 0 0)]
      [⟨0, 0, 0, 255⟩, ⟨1, 1, 1, 50⟩] (by decide)⟩

/-- Counterexample to claim C6: with an empty palette, the opaque pixel
(10,20,30,200) is not left unchanged (its alpha is forced to 255 by
`colour.to_rgba()`), and it is counted — under the initial empty name. -/
theorem empty_palette_pixel_changed_and_counted :
    quantizePixel distance_rgb [] ⟨10, 20, 30, 200⟩ = (⟨10, 20, 30, 255⟩, some "") ∧
      quantizePixel distance_rgb [] ⟨10, 20, 30, 200⟩
        ≠ ((⟨10, 20, 30, 200⟩ : Rgba), (none : Option String)) := by
  refine ⟨rfl, ?_⟩
  decide

/-- Amended claim C6: with an empty palette an opaque pixel keeps its RGB
channels but its alpha is forced to 255, and it is tallied in the frequency
table under the empty name. -/
theorem empty_palette_keeps_rgb_forces_alpha (dist : Rgb → Rgb → ℚ)
    (p : Rgba) (ha : 128 ≤ p.a) :
    quantizePixel dist [] p = (⟨p.r, p.g, p.b, 255⟩, some "") := by
  have hna : ¬ p.a < 128 := by omega
  simp [quantizePixel, hna, scanPalette, Rgb.toRgba]

/-- Witness for the amended C6 at the pixel (7,8,9,128). -/
theorem empty_palette_keeps_rgb_forces_alpha_witness :
    128 ≤ (Rgba.mk 7 8 9 128).a ∧
      quantizePixel distance_rgb [] ⟨7, 8, 9, 128⟩ = (⟨7, 8, 9, 255⟩, some "") :=
  ⟨by norm_num,
    empty_palette_keeps_rgb_forces_alpha distance_rgb ⟨7, 8, 9, 128⟩ (by norm_num)⟩

/-- Embedding of the grid-size computation of `create_beads` (process.rs lines
44-45): integer floor division of the source dimensions by the density
factor.  The code proceeds unconditionally with these dimensions; it has no
error path. -/
def gridDims (w h d : Nat) : Nat × Nat := (w / d, h / d)

/-- Modelled from the spec: the downscale contract of §4.1/§7 as the spec
words it, failing with `InvalidDimensions` when either resulting dimension is
zero.  Declared for comparison with `gridDims`; no such check exists in the
code. -/
def downscaleDimsSpec (w h d : Nat) : Except String (Nat × Nat) :=
  if w / d = 0 ∨ h / d = 0 then Except.error "InvalidDimensions"
  else Except.ok (w / d, h / d)

/-- Counterexample to claim C7: for a 1×1 source at density 2 the spec demands
an `InvalidDimensions` failure, but the code computes the degenerate 0×0 grid
and proceeds, quantizing the empty grid into an empty frequency table and an
empty image instead of failing. -/
theorem zero_grid_proceeds_without_error :
    gridDims 1 1 2 = (0, 0) ∧
      downscaleDimsSpec 1 1 2 = Except.error "InvalidDimensions" ∧
      createBeads distance_rgb [("A", Rgb.mk 0 0 0)] [] = (0, []) :=
  ⟨rfl, rfl, rfl⟩

/-- Amended claim C7: the downscaled grid dimensions are the floor divisions
of the source dimensions by the density factor, and when either is zero the
code raises no error — quantizing the resulting empty grid yields an empty
frequency table and an empty image. -/
theorem grid_dims_floor_and_degenerate_proceeds (w h d : Nat) (_hd : 1 ≤ d)
    (dist : Rgb → Rgb → ℚ) (palette : List (String × Rgb)) :
    gridDims w h d = (w / d, h / d) ∧ createBeads dist palette [] = (0, []) :=
  ⟨rfl, rfl⟩

/-- Witness for the amended C7 at a 5×3 source with density 4. -/
theorem grid_dims_floor_and_degenerate_proceeds_witness :
    1 ≤ 4 ∧
      (gridDims 5 3 4 = (5 / 4, 3 / 4) ∧
        createBeads distance_rgb [("A", Rgb.mk 0 0 0)] [] = (0, [])) :=
  ⟨by norm_num,
    grid_dims_floor_and_degenerate_proceeds 5 3 4 (by norm_num)
      distance_rgb [("A", Rgb.mk 0 0 0)]⟩

/-- Modelled from the spec: the Mirror step (§4.4) is absent from the code
under src/; per the spec it reverses the pixel order within each row of the
quantized grid. -/
def mirrorGrid (g : List (List Rgba)) : List (List Rgba) :=
  g.map List.reverse

/-- Claim C9: mirroring reverses each row without changing any colour (each
row keeps exactly its multiset of pixels), and mirroring twice restores the
grid exactly. -/
theorem mirror_involutive_preserves_colours (g : List (List Rgba)) :
    mirrorGrid (mirrorGrid g) = g ∧
      (mirrorGrid g).length = g.length ∧
      List.Forall₂ List.Perm (mirrorGrid g) g := by
  refine ⟨?_, by simp [mirrorGrid], ?_⟩
  · simp [mirrorGrid, List.map_map, Function.comp_def]
  · induction g with
    | nil => exact List.Forall₂.nil
    | cons row rest ih =>
      exact List.Forall₂.cons (List.reverse_perm row) ih

/-- An RGBA raster with its dimensions; `pix` gives the pixel at in-bounds
coordinates. -/
structure Img where
  width : Nat
  height : Nat
  pix : Nat → Nat → Rgba

/-- Embedding of `get_pixel` on a raster: out-of-bounds access panics in Rust,
modelled as `none`. -/
def Img.getPixel (img : Img) (x y : Nat) : Option Rgba :=
  if x < img.width ∧ y < img.height then some (img.pix x y) else none

/-- Embedding of the output dimensions of `show_pearls` (process.rs line 116):
`beads.width * pw` by `beads.height * ph`. -/
def showPearlsDims (beads perla : Img) : Nat × Nat :=
  (beads.width * perla.width, beads.height * perla.height)

/-- Embedding of the per-output-pixel closure of `show_pearls` (process.rs
lines 116-124), exactly as written: both the x and the y coordinate are split
with the texture WIDTH `pw` (`let (oy, py) = (y / pw, y % pw)` on line 118). -/
def showPearlsPixel (beads perla : Img) (x y : Nat) : Option Rgba :=
  match perla.getPixel (x % perla.width) (y % perla.width),
      beads.getPixel (x / perla.width) (y / perla.width) with
  | some pc, some c => some (mul_rgba c pc)
  | _, _ => none

/-- Modelled from the spec: the tiled-compositing formula of §4.5, splitting x
with the tile width and y with the tile height. -/
def showPearlsPixelSpec (beads perla : Img) (x y : Nat) : Option Rgba :=
  match perla.getPixel (x % perla.width) (y % perla.height),
      beads.getPixel (x / perla.width) (y / perla.height) with
  | some pc, some c => some (mul_rgba c pc)
  | _, _ => none

/-- A 1×1 bead grid holding the single cell (10,20,30,255). -/
def beadsEx : Img := ⟨1, 1, fun _ _ => ⟨10, 20, 30, 255⟩⟩

/-- A 1×2 (non-square) texture tile: white on its first row, grey below. -/
def perlaEx : Img :=
  ⟨1, 2, fun _ y => if y = 0 then ⟨255, 255, 255, 255⟩ else ⟨100, 100, 100, 255⟩⟩

/-- Claim C4 fails on the code: for the 1×1 bead grid and the 1×2 texture tile
the output raster is 1×2 as claimed, but at the in-bounds output pixel (0,1)
the code splits y by the tile width, reads bead cell (0, 1) — out of bounds, a
panic — while the claim's formula reads cell (0,0) and texture pixel (0,1),
giving the well-defined blend (3,7,11,255). -/
theorem show_pearls_nonsquare_tile_out_of_bounds :
    showPearlsDims beadsEx perlaEx = (1, 2) ∧
      showPearlsPixel beadsEx perlaEx 0 1 = none ∧
      showPearlsPixelSpec beadsEx perlaEx 0 1 = some ⟨3, 7, 11, 255⟩ :=
  ⟨rfl, rfl, rfl⟩
